import Mathlib

/-!
Verification of the vector-compression engine in
`src/scripts/compression/compression_utils.py` (ProductQuantizer and
ScalarQuantizer) together with its command scripts `pq_train.py` and
`compress.py`.

Embedding conventions:
* Machine floats are modelled as exact rationals (`ℚ`); the float literal
  `1e-8` is modelled as the exact rational 1/10^8.  The numpy casts
  `astype(np.float32)` are the identity in this model.
* A numpy array is a list of rows (`List (List ℚ)`), operations are written
  row by row; numpy's elementwise broadcasting along the last axis is
  modelled explicitly (widths must agree, or one of them must be 1).
* Python exceptions are an explicit `Except` result; the error type below
  mirrors the exception classes that the interpreter actually raises.
* The external clusterer `sklearn.cluster.MiniBatchKMeans` and the draw made
  by `np.random.choice` on the global (unseeded) NumPy generator are not
  repository code; they enter `pqTrain` as explicit parameters (`kms`, the
  centroid-producing procedure, and `idx`, the list of sampled row indices).
-/

/-- Exception classes raised by the Python code under consideration. -/
inductive PyErr where
  | valueError (msg : String) : PyErr
  | typeError (msg : String) : PyErr
  | indexError (msg : String) : PyErr
  | assertionError (msg : String) : PyErr
  | zeroDivisionError (msg : String) : PyErr
deriving DecidableEq, Repr

/-- The float literal `1e-8` of `ScalarQuantizer.quantize` (line 149), as an
exact rational. -/
def eps : ℚ := 1 / 100000000

/-- Truncation toward zero, the rounding used by the C-style cast behind
numpy's `astype` for float-to-integer conversion. -/
def truncQ (q : ℚ) : ℤ := if 0 ≤ q then ⌊q⌋ else ⌈q⌉

/-- Translation of `astype(np.uint8)` applied to one float element: truncate toward zero,
then wrap into a byte modulo 256 (the observable numpy behaviour for
out-of-range conversions on the supported platforms). -/
def toUint8 (q : ℚ) : ℕ := (Int.emod (truncQ q) 256).toNat

/-- State of `ScalarQuantizer` (lines 131-173): `min_val`/`max_val` start as
Python `None`, hence the `Option`. -/
structure SQState where
  min_val : Option (List ℚ)
  max_val : Option (List ℚ)
  is_fitted : Bool
deriving DecidableEq, Repr

/-- Translation of `ScalarQuantizer.__init__` (lines 132-135). -/
def sqNew : SQState := ⟨none, none, false⟩

/-- Columnwise minimum over the rows, `vectors.min(axis=0)` for a rectangular
nonempty array. -/
def colMin : List (List ℚ) → List ℚ
  | [] => []
  | [r] => r
  | r :: rest => List.zipWith min r (colMin rest)

/-- Columnwise maximum over the rows, `vectors.max(axis=0)`. -/
def colMax : List (List ℚ) → List ℚ
  | [] => []
  | [r] => r
  | r :: rest => List.zipWith max r (colMax rest)

/-- Translation of `ScalarQuantizer.fit` (lines 137-142): store the per-dimension minimum
and maximum and set the fitted flag.  numpy's `min`/`max` raise a
`ValueError` on an empty array. -/
def sqFit (_s : SQState) (vectors : List (List ℚ)) : Except PyErr SQState :=
  if vectors.isEmpty then
    .error (.valueError "zero-size array to reduction operation minimum which has no identity")
  else
    .ok ⟨some (colMin vectors), some (colMax vectors), true⟩

/-- One element of `ScalarQuantizer.quantize` (lines 149-150):
`(value - min) / (max - min + 1e-8)`, scaled by 255 and cast with
`astype(np.uint8)`. -/
def quantElem (mn mx v : ℚ) : ℕ := toUint8 ((v - mn) / (mx - mn + eps) * 255)

/-- One row of `ScalarQuantizer.quantize`.  The composite of the numpy
broadcasts in `(vectors - min) / (max - min + 1e-8) * 255`: the row width
must equal the fitted width, or one of the two widths must be 1. -/
def sqQuantizeRow (mn mx row : List ℚ) : Except PyErr (List ℕ) :=
  if row.length = mn.length then
    .ok (List.zipWith (fun v p => quantElem (Prod.fst p) (Prod.snd p) v) row (mn.zip mx))
  else if row.length = 1 then
    .ok ((mn.zip mx).map (fun p => quantElem (Prod.fst p) (Prod.snd p) (row.headD 0)))
  else if mn.length = 1 then
    .ok (row.map (fun v => quantElem (mn.headD 0) (mx.headD 0) v))
  else .error (.valueError "operands could not be broadcast together")

/-- Sequencing of a fallible row operation over all rows of an array (the
vectorized numpy call evaluated row by row). -/
def mapE (f : α → Except PyErr β) : List α → Except PyErr (List β)
  | [] => .ok []
  | a :: as => do
    let b ← f a
    let bs ← mapE f as
    .ok (b :: bs)

/-- Translation of `ScalarQuantizer.quantize` (lines 144-150): precondition check on the
fitted flag, then the elementwise affine map and uint8 cast.  A fitted state
always carries `some` min/max; the `none` fallback mirrors the `TypeError`
Python would raise on arithmetic with `None`. -/
def sqQuantize (s : SQState) (vectors : List (List ℚ)) : Except PyErr (List (List ℕ)) :=
  if s.is_fitted = false then .error (.valueError "Quantizer not fitted")
  else
    match s.min_val, s.max_val with
    | some mn, some mx => mapE (sqQuantizeRow mn mx) vectors
    | _, _ => .error (.typeError "unsupported operand type(s) for -: NoneType and NoneType")

/-- One element of `ScalarQuantizer.dequantize` (lines 152-155):
`code / 255 * (max - min) + min`. -/
def dequantElem (mn mx : ℚ) (b : ℕ) : ℚ := (b : ℚ) / 255 * (mx - mn) + mn

/-- One row of `ScalarQuantizer.dequantize`, with the same broadcasting rule
as quantization. -/
def sqDequantizeRow (mn mx : List ℚ) (row : List ℕ) : Except PyErr (List ℚ) :=
  if row.length = mn.length then
    .ok (List.zipWith (fun b p => dequantElem (Prod.fst p) (Prod.snd p) b) row (mn.zip mx))
  else if row.length = 1 then
    .ok ((mn.zip mx).map (fun p => dequantElem (Prod.fst p) (Prod.snd p) (row.headD 0)))
  else if mn.length = 1 then
    .ok (row.map (fun b => dequantElem (mn.headD 0) (mx.headD 0) b))
  else .error (.valueError "operands could not be broadcast together")

/-- Translation of `ScalarQuantizer.dequantize` (lines 152-155).  Note: unlike `quantize`,
the source performs no `is_fitted` check; before `fit` the fields are `None`
and the expression `self.max_val - self.min_val` raises a `TypeError`. -/
def sqDequantize (s : SQState) (codes : List (List ℕ)) : Except PyErr (List (List ℚ)) :=
  match s.min_val, s.max_val with
  | some mn, some mx => mapE (sqDequantizeRow mn mx) codes
  | _, _ => .error (.typeError "unsupported operand type(s) for -: NoneType and NoneType")

deriving instance DecidableEq for Except

/-- State of `ProductQuantizer` (lines 22-37). -/
structure PQState where
  n_subspaces : ℕ
  n_centroids : ℕ
  vector_dim : ℕ
  subvector_dim : ℕ
  codebooks : List (List (List ℚ))
  is_trained : Bool
deriving DecidableEq, Repr

/-- Translation of `ProductQuantizer.__init__` (lines 23-37).  The only validation in the
whole class: `assert vector_dim % n_subspaces == 0` (line 33).  With
`n_subspaces = 0` Python's `%` itself raises a `ZeroDivisionError`. -/
def pqInit (n_subspaces n_centroids vector_dim : ℕ) : Except PyErr PQState :=
  if n_subspaces = 0 then
    .error (.zeroDivisionError "integer modulo by zero")
  else if vector_dim % n_subspaces = 0 then
    .ok ⟨n_subspaces, n_centroids, vector_dim, vector_dim / n_subspaces, [], false⟩
  else .error (.assertionError "")

/-- numpy row slice `row[start:stop]` (with numpy's silent clipping when the
bounds exceed the row width). -/
def slice2 (start stop : ℕ) (row : List ℚ) : List ℚ := (row.drop start).take (stop - start)

/-- Translation of `ProductQuantizer.train` (lines 39-67).  The two external effects are
passed in explicitly: `kms K data` stands for
`MiniBatchKMeans(n_clusters=K, batch_size=1000, max_iter=50, random_state=42).fit(data).cluster_centers_`
(the sklearn clusterer, seeded and hence a function of its input), and `idx`
stands for the row indices drawn by `np.random.choice(len(vectors), n_samples,
replace=False)` — a draw from the global, unseeded NumPy generator, which is
why it must be an input of the model rather than a function of the data.
`idx` is only consulted when `len(vectors) > n_samples`, and a real draw
always satisfies `ValidDraw` below.  The method performs no validation of its
own; it appends one codebook per subspace and sets the trained flag. -/
def pqTrain (kms : ℕ → List (List ℚ) → List (List ℚ)) (idx : List ℕ)
    (s : PQState) (vectors : List (List ℚ)) (n_samples : ℕ) : PQState :=
  let sampled := if n_samples < vectors.length then idx.map (fun i => vectors.getD i []) else vectors
  let cbs := (List.range s.n_subspaces).map (fun m =>
    kms s.n_centroids
      (sampled.map (slice2 (m * s.subvector_dim) (m * s.subvector_dim + s.subvector_dim))))
  { s with codebooks := s.codebooks ++ cbs, is_trained := true }

/-- The index lists that `np.random.choice(N, S, replace=False)` can return:
`S` distinct indices below `N`. -/
def ValidDraw (N S : ℕ) (idx : List ℕ) : Prop :=
  idx.length = S ∧ idx.Nodup ∧ ∀ i ∈ idx, i < N

instance (N S : ℕ) (idx : List ℕ) : Decidable (ValidDraw N S idx) := by
  unfold ValidDraw
  infer_instance

/-- Squared Euclidean distance between two equally wide vectors; the source
compares the norms `np.linalg.norm` (line 83), and the square root is a
strictly monotone map of this value, so minimisation and argmin-selection are
unchanged.  Distances are kept squared so that the development stays inside
`ℚ` and remains executable. -/
def sqDistVal (x c : List ℚ) : ℚ := (List.zipWith (fun a b => (a - b) * (a - b)) x c).sum

/-- The elementwise subtraction `subvectors[:, None, :] - codebook[None, :, :]`
followed by squaring and summing over the last axis, for one subvector `x`
and one centroid `c`, with numpy's broadcast rule on the last axis: the
widths must agree or one of them must be 1. -/
def sqDistB (x c : List ℚ) : Except PyErr ℚ :=
  if x.length = c.length then .ok (sqDistVal x c)
  else if x.length = 1 then .ok ((c.map (fun b => (x.headD 0 - b) * (x.headD 0 - b))).sum)
  else if c.length = 1 then .ok ((x.map (fun a => (a - c.headD 0) * (a - c.headD 0))).sum)
  else .error (.valueError "operands could not be broadcast together")

/-- Distances from one subvector to every centroid of one codebook (row `m`
of the `distances` array of lines 83-86). -/
def distList (x : List ℚ) : List (List ℚ) → Except PyErr (List ℚ)
  | [] => .ok []
  | c :: rest => do
    let d ← sqDistB x c
    let ds ← distList x rest
    .ok (d :: ds)

/-- Translation of `np.argmin`: the first index attaining the minimum of the list. -/
def argminIdx : List ℚ → ℕ
  | [] => 0
  | [_] => 0
  | x :: y :: ys =>
    let j := argminIdx (y :: ys)
    if (y :: ys).getD j 0 < x then j + 1 else 0

/-- The loop of `ProductQuantizer.encode` (lines 78-87), for one input row:
for the codebook of each subspace `m`, slice the row, compute the distances
to all centroids, and take `np.argmin`.  The assignment into the
`dtype=np.uint8` array `codes` (lines 76, 87) wraps the argmin modulo 256.
`np.argmin` raises on an empty distance list. -/
def encodeCodes (subdim : ℕ) : List (List (List ℚ)) → ℕ → List ℚ → Except PyErr (List ℕ)
  | [], _, _ => .ok []
  | cb :: rest, m, row => do
    let ds ← distList (slice2 (m * subdim) (m * subdim + subdim) row) cb
    if ds.length = 0 then
      .error (.valueError "attempt to get argmin of an empty sequence")
    else do
      let codes ← encodeCodes subdim rest (m + 1) row
      .ok (argminIdx ds % 256 :: codes)

/-- Translation of `ProductQuantizer.encode` (lines 69-89) for one row of the input: the
output row of `codes` has width `n_subspaces` (line 76), columns beyond the
enumerated codebooks keep their zero initialisation, and a codebook index at
or beyond `n_subspaces` would be an out-of-bounds column write. -/
def pqEncodeRow (s : PQState) (row : List ℚ) : Except PyErr (List ℕ) := do
  let raw ← encodeCodes s.subvector_dim s.codebooks 0 row
  if s.n_subspaces < raw.length then .error (.indexError "index out of bounds")
  else .ok (raw ++ List.replicate (s.n_subspaces - raw.length) 0)

/-- Translation of `ProductQuantizer.encode` (lines 69-89): the `is_trained` precondition
check (lines 71-72), then the per-row encoding. -/
def pqEncode (s : PQState) (vectors : List (List ℚ)) : Except PyErr (List (List ℕ)) :=
  if s.is_trained = false then .error (.valueError "PQ is not trained yet")
  else mapE (pqEncodeRow s) vectors

/-- Write `vals` over the slice of `row` starting at `start`
(`reconstructed[:, start:end] = ...`, line 99, for one row). -/
def writeSlice (row : List ℚ) (start : ℕ) (vals : List ℚ) : List ℚ :=
  row.take start ++ vals ++ row.drop (start + vals.length)

/-- The loop of `ProductQuantizer.decode` (lines 96-99) for one code row:
look up the centroid selected in each subspace and write it into the
corresponding slice of the zero-initialised reconstruction.  Missing code
columns and out-of-range centroid indices raise `IndexError`; a centroid
whose width does not match the (clipped) target slice fails to broadcast,
except for the width-1 broadcast. -/
def decodeLoop (subdim D : ℕ) : List (List (List ℚ)) → ℕ → List ℕ → List ℚ →
    Except PyErr (List ℚ)
  | [], _, _, acc => .ok acc
  | cb :: rest, m, codeRow, acc =>
    match codeRow.get? m with
    | none => .error (.indexError "index out of bounds")
    | some c =>
      match cb.get? c with
      | none => .error (.indexError "index out of bounds")
      | some cent =>
        let start := min (m * subdim) D
        let stop := min (m * subdim + subdim) D
        if cent.length = stop - start then
          decodeLoop subdim D rest (m + 1) codeRow (writeSlice acc start cent)
        else if cent.length = 1 then
          decodeLoop subdim D rest (m + 1) codeRow
            (writeSlice acc start (List.replicate (stop - start) (cent.headD 0)))
        else .error (.valueError "could not broadcast input array")

/-- Translation of `ProductQuantizer.decode` (lines 91-101) for one code row, starting from
the zero row of `np.zeros((n, vector_dim))` (line 94).  Note: the source has
no `is_trained` precondition here. -/
def pqDecodeRow (s : PQState) (codeRow : List ℕ) : Except PyErr (List ℚ) :=
  decodeLoop s.subvector_dim s.vector_dim s.codebooks 0 codeRow
    (List.replicate s.vector_dim 0)

/-- Translation of `ProductQuantizer.decode` (lines 91-101). -/
def pqDecode (s : PQState) (codes : List (List ℕ)) : Except PyErr (List (List ℚ)) :=
  mapE (pqDecodeRow s) codes

/-- The dictionary pickled by `ProductQuantizer.save` (lines 103-113). -/
structure PQArtifact where
  n_subspaces : ℕ
  n_centroids : ℕ
  vector_dim : ℕ
  codebooks : List (List (List ℚ))
  is_trained : Bool
deriving DecidableEq, Repr

/-- Translation of `ProductQuantizer.save` (lines 103-113): the artifact records exactly the
five listed fields (`subvector_dim` is not saved). -/
def pqSave (s : PQState) : PQArtifact :=
  ⟨s.n_subspaces, s.n_centroids, s.vector_dim, s.codebooks, s.is_trained⟩

/-- Translation of `ProductQuantizer.load` (lines 115-125): overwrite the five pickled
fields of the receiving instance; `subvector_dim` keeps the value computed by
that instance's constructor. -/
def pqLoad (s : PQState) (a : PQArtifact) : PQState :=
  ⟨a.n_subspaces, a.n_centroids, a.vector_dim, s.subvector_dim, a.codebooks, a.is_trained⟩

/-- The instance `ProductQuantizer()` built with the default arguments
`n_subspaces=8, n_centroids=256, vector_dim=1024`; this is the receiver used
by `compress.py` (line 32) before calling `load`, so its `subvector_dim` is
`1024 / 8 = 128`. -/
def pqDefault : PQState := ⟨8, 256, 1024, 128, [], false⟩

/-- Stand-in for the external clusterer in concrete runs: returns the data
points themselves as centroids.  For the singleton datasets used below this
is exactly what the seeded `MiniBatchKMeans` produces (one cluster per
point). -/
def kmsId (_K : ℕ) (data : List (List ℚ)) : List (List ℚ) := data

/-- Modelled from the spec: the elementwise quantization map as §4.3 words
it — normalize by `(value - min) / (max - min + eps)`, scale by 255, round to
the NEAREST integer, and saturate into [0, 255] (§4.3 and §9 demand
saturation rather than overflow).  This is the reference the source is
compared against, not a translation of the source. -/
def specQuantElem (mn mx v : ℚ) : ℕ :=
  let y := (v - mn) / (mx - mn + eps) * 255
  if y ≤ 0 then 0 else if 255 ≤ y then 255 else (round y).toNat

/-- Concrete trained state with M=1, K=1, D=2 (the result of `pqTrain` below,
i.e. of training on the single vector `[0, 0]`). -/
def pqSmall : PQState := ⟨1, 1, 2, 2, [[[0, 0]]], true⟩

/-- Concrete trained state with M=2, K=1, D=8 (training on `[1, ..., 8]`). -/
def pqEight : PQState := ⟨2, 1, 8, 4, [[[1, 2, 3, 4]], [[5, 6, 7, 8]]], true⟩

/-- Concrete trained state with M=4, K=1, D=16 (training on `[1, ..., 16]`). -/
def pqSixteen : PQState :=
  ⟨4, 1, 16, 4, [[[1, 2, 3, 4]], [[5, 6, 7, 8]], [[9, 10, 11, 12]], [[13, 14, 15, 16]]], true⟩

/-- Concrete trained state with M=1, K=2, D=2: two centroids `[0,0]`, `[5,5]`. -/
def pqTwoCent : PQState := ⟨1, 2, 2, 2, [[[0, 0], [5, 5]]], true⟩

/-- A scalar quantizer fitted on the two one-dimensional vectors 0 and 1. -/
def sqUnit : SQState := ⟨some [0], some [1], true⟩

/-- A scalar quantizer fitted on the two one-dimensional vectors 0 and 255. -/
def sqWide : SQState := ⟨some [0], some [255], true⟩

/- ------------------------------------------------------------------ -/
/- Helper lemmas                                                       -/
/- ------------------------------------------------------------------ -/

/-- Evaluation helper: `toUint8 q` for a nonnegative value bracketed by the
integer `m`. -/
theorem toUint8_eq (q : ℚ) (m : ℤ) (h0 : 0 ≤ m) (h1 : (m : ℚ) ≤ q) (h2 : q < m + 1) :
    toUint8 q = (Int.emod m 256).toNat := by
  have hq : 0 ≤ q := le_trans (by exact_mod_cast h0) h1
  have hf : ⌊q⌋ = m := Int.floor_eq_iff.mpr ⟨h1, by exact_mod_cast h2⟩
  unfold toUint8 truncQ
  rw [if_pos hq, hf]

theorem mapE_ok_of (f : α → Except PyErr β) (g : α → β) (h : ∀ a, f a = .ok (g a)) :
    ∀ l : List α, mapE f l = .ok (l.map g)
  | [] => rfl
  | a :: as => by
    simp only [mapE, h a, List.map_cons, mapE_ok_of f g h as]
    rfl

theorem toUint8_le (q : ℚ) : toUint8 q ≤ 255 := by
  unfold toUint8
  have h1 : 0 ≤ Int.emod (truncQ q) 256 := Int.emod_nonneg _ (by decide)
  have h2 : Int.emod (truncQ q) 256 < 256 := Int.emod_lt_of_pos _ (by decide)
  omega

theorem argminIdx_lt_length : ∀ l : List ℚ, l ≠ [] → argminIdx l < l.length
  | [], h => absurd rfl h
  | [_], _ => Nat.zero_lt_one
  | x :: y :: ys, _ => by
    have ih := argminIdx_lt_length (y :: ys) (by simp)
    simp only [argminIdx]
    split
    · simpa using Nat.succ_lt_succ ih
    · simp

theorem argminIdx_le : ∀ l : List ℚ, ∀ i, i < l.length → l.getD (argminIdx l) 0 ≤ l.getD i 0
  | [], i, hi => by simp at hi
  | [x], i, hi => by
    have : i = 0 := by simpa using Nat.lt_one_iff.mp (by simpa using hi)
    simp [this, argminIdx]
  | x :: y :: ys, i, hi => by
    have ih := argminIdx_le (y :: ys)
    have hj := argminIdx_lt_length (y :: ys) (by simp)
    simp only [argminIdx]
    split
    · rename_i h
      cases i with
      | zero => simpa using le_of_lt h
      | succ k =>
        have hk : k < (y :: ys).length := by simpa using hi
        simpa using ih k hk
    · rename_i h
      push_neg at h
      cases i with
      | zero => simp
      | succ k =>
        have hk : k < (y :: ys).length := by simpa using hi
        have := ih k hk
        simp only [List.getD_cons_zero, List.getD_cons_succ]
        exact le_trans h this

theorem argminIdx_first : ∀ l : List ℚ, ∀ i, i < argminIdx l →
    l.getD (argminIdx l) 0 < l.getD i 0
  | [], i, hi => by simp [argminIdx] at hi
  | [x], i, hi => by simp [argminIdx] at hi
  | x :: y :: ys, i, hi => by
    have ih := argminIdx_first (y :: ys)
    simp only [argminIdx] at hi ⊢
    split
    · rename_i h
      cases i with
      | zero => simpa using h
      | succ k =>
        rw [if_pos h] at hi
        have hk : k < argminIdx (y :: ys) := by omega
        simpa using ih k hk
    · rename_i h
      rw [if_neg h] at hi
      omega

theorem slice2_take (start stop D : ℕ) (row : List ℚ) (h1 : stop ≤ D) :
    slice2 start stop (row.take D) = slice2 start stop row := by
  unfold slice2
  rw [List.drop_take, List.take_take]
  congr 1
  omega

theorem slice2_length (start stop : ℕ) (row : List ℚ) (h : stop ≤ row.length)
    (h2 : start ≤ stop) : (slice2 start stop row).length = stop - start := by
  unfold slice2
  rw [List.length_take, List.length_drop]
  omega

theorem distList_ok (x : List ℚ) : ∀ cb : List (List ℚ),
    (∀ c ∈ cb, c.length = x.length) → distList x cb = .ok (cb.map (sqDistVal x))
  | [], _ => rfl
  | c :: rest, h => by
    have hc : x.length = c.length := (h c (by simp)).symm
    have ih := distList_ok x rest (fun c hcmem => h c (by simp [hcmem]))
    simp only [distList, sqDistB, if_pos hc, ih, List.map_cons]
    rfl

theorem sqDistVal_nonneg : ∀ x c : List ℚ, 0 ≤ sqDistVal x c
  | [], _ => by simp [sqDistVal]
  | _ :: _, [] => by simp [sqDistVal]
  | a :: x, b :: c => by
    have ih := sqDistVal_nonneg x c
    simp only [sqDistVal, List.zipWith_cons_cons, List.sum_cons] at ih ⊢
    exact add_nonneg (mul_self_nonneg _) ih

theorem ok_bind (a : α) (f : α → Except PyErr β) : (Except.ok a >>= f) = f a := rfl

theorem getD_map_of_lt (f : List ℚ → ℚ) (cb : List (List ℚ)) (j : ℕ) (h : j < cb.length) :
    (cb.map f).getD j 0 = f (cb.getD j []) := by
  induction cb generalizing j with
  | nil => simp at h
  | cons c rest ih =>
    cases j with
    | zero => simp
    | succ k => simpa using ih k (by simpa using h)

theorem encodeCodes_spec (subdim : ℕ) (row : List ℚ) :
    ∀ (cbs : List (List (List ℚ))) (m : ℕ),
      (m + cbs.length) * subdim ≤ row.length →
      (∀ cb ∈ cbs, cb ≠ [] ∧ ∀ c ∈ cb, c.length = subdim) →
      ∃ codes, encodeCodes subdim cbs m row = .ok codes ∧ codes.length = cbs.length ∧
        ∀ i, i < cbs.length →
          codes.get? i = some (argminIdx ((cbs.getD i []).map
            (sqDistVal (slice2 ((m + i) * subdim) ((m + i) * subdim + subdim) row))) % 256)
  | [], m, _, _ => ⟨[], rfl, rfl, by intro i hi; simp at hi⟩
  | cb :: rest, m, hlen, hcb => by
    simp only [List.length_cons] at hlen
    have hstop : m * subdim + subdim ≤ row.length := by
      have h1 : (m + 1) * subdim ≤ (m + (rest.length + 1)) * subdim :=
        Nat.mul_le_mul_right _ (by omega)
      have h2 : (m + 1) * subdim = m * subdim + subdim := by ring
      omega
    have hslice : (slice2 (m * subdim) (m * subdim + subdim) row).length = subdim := by
      rw [slice2_length _ _ _ hstop (by omega)]
      omega
    have hwidth : ∀ c ∈ cb, c.length = (slice2 (m * subdim) (m * subdim + subdim) row).length := by
      intro c hc
      rw [hslice]
      exact (hcb cb (by simp)).2 c hc
    have hne : cb ≠ [] := (hcb cb (by simp)).1
    obtain ⟨codes', hok', hlen', hspec'⟩ :=
      encodeCodes_spec subdim row rest (m + 1) (by
        have : (m + 1 + rest.length) = m + (rest.length + 1) := by omega
        rw [this]
        exact hlen)
        (fun c hc => hcb c (by simp [hc]))
    refine ⟨argminIdx (cb.map (sqDistVal (slice2 (m * subdim) (m * subdim + subdim) row))) % 256
      :: codes', ?_, by simpa using hlen', ?_⟩
    · have hdsne : ¬(cb.map (sqDistVal (slice2 (m * subdim) (m * subdim + subdim) row))).length = 0 := by
        simpa using fun h => hne (List.eq_nil_of_length_eq_zero h)
      simp only [encodeCodes, distList_ok _ cb hwidth, ok_bind, if_neg hdsne, hok']
    · intro i hi
      cases i with
      | zero => simp
      | succ k =>
        have hk : k < rest.length := by simpa using hi
        have hidx := hspec' k hk
        rw [show m + (k + 1) = m + 1 + k from by omega]
        simpa using hidx

theorem quantElem_inrange (mn mx v : ℚ) (h1 : mn ≤ v) (h2 : v ≤ mx) :
    quantElem mn mx v = (⌊(v - mn) / (mx - mn + eps) * 255⌋).toNat ∧
    0 ≤ ⌊(v - mn) / (mx - mn + eps) * 255⌋ ∧
    ⌊(v - mn) / (mx - mn + eps) * 255⌋ ≤ 254 := by
  set y : ℚ := (v - mn) / (mx - mn + eps) * 255 with hy
  have heps : (0 : ℚ) < eps := by norm_num [eps]
  have hd : (0 : ℚ) < mx - mn + eps := by linarith
  have hy0 : 0 ≤ y := by
    rw [hy]
    have : (0 : ℚ) ≤ (v - mn) / (mx - mn + eps) := div_nonneg (by linarith) (le_of_lt hd)
    linarith
  have hylt : y < 255 := by
    rw [hy]
    have hlt : (v - mn) / (mx - mn + eps) < 1 := by
      rw [div_lt_one hd]
      linarith
    nlinarith
  have hb0 : 0 ≤ ⌊y⌋ := Int.floor_nonneg.mpr hy0
  have hb254 : ⌊y⌋ ≤ 254 := by
    have : ⌊y⌋ < 255 := Int.floor_lt.mpr (by exact_mod_cast hylt)
    omega
  refine ⟨?_, hb0, hb254⟩
  unfold quantElem toUint8 truncQ
  rw [← hy, if_pos hy0]
  show (⌊y⌋ % (256 : ℤ)).toNat = ⌊y⌋.toNat
  rw [Int.emod_eq_of_lt hb0 (by omega)]

theorem colMin_replicate (c : ℚ) : ∀ n, colMin (List.replicate (n + 1) [c]) = [c]
  | 0 => rfl
  | n + 1 => by
    have h : colMin (List.replicate (n + 1 + 1) [c]) =
        List.zipWith min [c] (colMin (List.replicate (n + 1) [c])) := rfl
    rw [h, colMin_replicate c n]
    simp

theorem colMax_replicate (c : ℚ) : ∀ n, colMax (List.replicate (n + 1) [c]) = [c]
  | 0 => rfl
  | n + 1 => by
    have h : colMax (List.replicate (n + 1 + 1) [c]) =
        List.zipWith max [c] (colMax (List.replicate (n + 1) [c])) := rfl
    rw [h, colMax_replicate c n]
    simp

/- ------------------------------------------------------------------ -/
/- Claims                                                              -/
/- ------------------------------------------------------------------ -/

/-- C1 (amended).  For an element within the fitted range of its dimension,
`ScalarQuantizer.quantize` computes the normalized value
`(v - min) / (max - min + 1e-8) * 255` and then TRUNCATES it toward zero
(the floor, as the value is nonnegative), rather than rounding to the
nearest integer; the result always lies in [0, 254] — an in-range value is
never mapped to 255.  (Out-of-range values wrap modulo 256 instead of
saturating; see the counterexample.) -/
theorem C1_quantize_truncates (mn mx v : ℚ) (h1 : mn ≤ v) (h2 : v ≤ mx) :
    quantElem mn mx v = (⌊(v - mn) / (mx - mn + eps) * 255⌋).toNat ∧
    quantElem mn mx v ≤ 254 := by
  obtain ⟨hq, hb0, hb254⟩ := quantElem_inrange mn mx v h1 h2
  exact ⟨hq, by rw [hq]; omega⟩

/-- Witness for C1: the amended statement at min 0, max 1, value 1/2. -/
theorem C1_witness :
    ((0 : ℚ) ≤ 1/2 ∧ (1/2 : ℚ) ≤ 1) ∧
    (quantElem 0 1 (1/2) = (⌊((1/2 : ℚ) - 0) / (1 - 0 + eps) * 255⌋).toNat ∧
      quantElem 0 1 (1/2) ≤ 254) :=
  ⟨⟨by norm_num, by norm_num⟩, C1_quantize_truncates 0 1 (1/2) (by norm_num) (by norm_num)⟩

/-- Counterexample to C1 as stated.  On the quantizer fitted on the
one-dimensional data 0, 1: the out-of-range value 2 is quantized to the
byte 253 — it wraps around modulo 256 instead of saturating to 0 or 255 —
and the in-range value 0.395 is quantized to 100 where the round-to-nearest
saturating map of the spec gives 101 (the cast truncates). -/
theorem C1_counterexample :
    sqFit sqNew [[0], [1]] = .ok sqUnit ∧
    sqQuantize sqUnit [[2]] = .ok [[253]] ∧
    ¬((253 : ℕ) = 0 ∨ (253 : ℕ) = 255) ∧
    sqQuantize sqUnit [[79/200]] = .ok [[100]] ∧
    specQuantElem 0 1 (79/200) = 101 ∧ (100 : ℕ) ≠ 101 := by
  have hwrap : quantElem 0 1 2 = 253 := by
    unfold quantElem
    rw [toUint8_eq _ 509 (by norm_num) (by norm_num [eps]) (by norm_num [eps])]
    decide
  have htrunc : quantElem 0 1 (79/200) = 100 := by
    unfold quantElem
    rw [toUint8_eq _ 100 (by norm_num) (by norm_num [eps]) (by norm_num [eps])]
    decide
  have hspec : specQuantElem 0 1 (79/200) = 101 := by
    unfold specQuantElem
    rw [if_neg (by norm_num [eps]), if_neg (by norm_num [eps])]
    have hr : round (((79:ℚ)/200 - 0) / (1 - 0 + eps) * 255) = 101 := by
      rw [round_eq, Int.floor_eq_iff]
      norm_num [eps]
    rw [hr]
    decide
  refine ⟨by simp [sqFit, colMin, colMax, sqUnit], ?_, by decide, ?_, hspec, by decide⟩
  · simp [sqQuantize, sqUnit, mapE, sqQuantizeRow, hwrap]
    rfl
  · simp [sqQuantize, sqUnit, mapE, sqQuantizeRow, htrunc]
    rfl

/-- C5 (amended).  For an element within the fitted range, the reconstruction
`dequantize(quantize(v))` never overshoots `v`, and its absolute error is
strictly below `(max - min) / 255 + 1e-8`.  The extra `1e-8` (the epsilon of
the normalization denominator) is genuinely needed: the bound
`(max - min) / 255` of the claim fails, because the cast truncates and the
epsilon shifts every quantization threshold slightly upward (see the
counterexample). -/
theorem C5_roundtrip_bound (mn mx v : ℚ) (h1 : mn ≤ v) (h2 : v ≤ mx) :
    dequantElem mn mx (quantElem mn mx v) ≤ v ∧
    |v - dequantElem mn mx (quantElem mn mx v)| < (mx - mn) / 255 + eps := by
  obtain ⟨hq, hb0, hb254⟩ := quantElem_inrange mn mx v h1 h2
  set y : ℚ := (v - mn) / (mx - mn + eps) * 255 with hy
  set b : ℤ := ⌊y⌋ with hbdef
  have heps : (0 : ℚ) < eps := by norm_num [eps]
  have hd : (0 : ℚ) < mx - mn + eps := by linarith
  have hfl : (b : ℚ) ≤ y := Int.floor_le y
  have hfu : y < (b : ℚ) + 1 := Int.lt_floor_add_one y
  have hb0' : (0 : ℚ) ≤ (b : ℚ) := by exact_mod_cast hb0
  have hb254' : (b : ℚ) ≤ 254 := by exact_mod_cast hb254
  have hcast : ((b.toNat : ℕ) : ℚ) = (b : ℚ) := by exact_mod_cast Int.toNat_of_nonneg hb0
  have hde : dequantElem mn mx (quantElem mn mx v) = (b : ℚ) / 255 * (mx - mn) + mn := by
    rw [hq]
    unfold dequantElem
    rw [hcast]
  have hyd : y * (mx - mn + eps) = (v - mn) * 255 := by
    rw [hy]
    field_simp
  have h3 : (b : ℚ) * (mx - mn + eps) ≤ (v - mn) * 255 := by
    calc (b : ℚ) * (mx - mn + eps) ≤ y * (mx - mn + eps) :=
          mul_le_mul_of_nonneg_right hfl hd.le
      _ = (v - mn) * 255 := hyd
  have h4 : (v - mn) * 255 < ((b : ℚ) + 1) * (mx - mn + eps) := by
    calc (v - mn) * 255 = y * (mx - mn + eps) := hyd.symm
      _ < ((b : ℚ) + 1) * (mx - mn + eps) := mul_lt_mul_of_pos_right hfu hd
  have hbe : (0 : ℚ) ≤ (b : ℚ) * eps := mul_nonneg hb0' heps.le
  have h5 : (b : ℚ) * (mx - mn) ≤ (v - mn) * 255 := by nlinarith
  have hle : (b : ℚ) / 255 * (mx - mn) + mn ≤ v := by linarith
  refine ⟨by rw [hde]; exact hle, ?_⟩
  rw [hde, abs_of_nonneg (by linarith)]
  have hbe' : ((b : ℚ) - 254) * eps ≤ 0 :=
    mul_nonpos_of_nonpos_of_nonneg (by linarith) heps.le
  nlinarith

/-- Witness for C5: the amended bound at min 0, max 1, value 1/2. -/
theorem C5_witness :
    ((0 : ℚ) ≤ 1/2 ∧ (1/2 : ℚ) ≤ 1) ∧
    (dequantElem 0 1 (quantElem 0 1 (1/2)) ≤ 1/2 ∧
      |(1/2 : ℚ) - dequantElem 0 1 (quantElem 0 1 (1/2))| < (1 - 0) / 255 + eps) :=
  ⟨⟨by norm_num, by norm_num⟩, C5_roundtrip_bound 0 1 (1/2) (by norm_num) (by norm_num)⟩

/-- Counterexample to C5 as stated.  On the quantizer fitted on the
one-dimensional data 0 and 255, the in-range value `v = 1 + 10⁻¹¹` has
`255·v / (255 + 1e-8) < 1`, so it quantizes to byte 0 and dequantizes to 0;
the reconstruction error `v` exceeds the claimed per-dimension bound
`(max - min) / 255 = 1`. -/
theorem C5_counterexample :
    sqFit sqNew [[0], [255]] = .ok sqWide ∧
    ((0 : ℚ) ≤ 100000000001/100000000000 ∧ (100000000001/100000000000 : ℚ) ≤ 255) ∧
    sqQuantize sqWide [[100000000001/100000000000]] = .ok [[0]] ∧
    sqDequantize sqWide [[0]] = .ok [[0]] ∧
    ¬(|(100000000001/100000000000 : ℚ) - 0| ≤ (255 - 0) / 255) := by
  have hq : quantElem 0 255 (100000000001/100000000000) = 0 := by
    unfold quantElem
    rw [toUint8_eq _ 0 (by norm_num) (by norm_num [eps]) (by norm_num [eps])]
    decide
  refine ⟨by simp [sqFit, colMin, colMax, sqWide], ⟨by norm_num, by norm_num⟩, ?_, ?_, ?_⟩
  · simp [sqQuantize, sqWide, mapE, sqQuantizeRow, hq]
    rfl
  · simp only [sqDequantize, sqWide, mapE, sqDequantizeRow]
    norm_num [dequantElem]
    rfl
  · rw [abs_of_nonneg (by norm_num)]
    norm_num

/-- C9 (confirmed).  If the quantizer is fitted on data whose (single)
dimension is constant with value `c`, the fitted minimum and maximum both
equal `c`; the normalization denominator `max - min + 1e-8` is the nonzero
`1e-8`, so no division-by-zero error can occur, quantization is a total
function whose output byte is always in [0, 255], and the constant value
itself quantizes to the byte 0. -/
theorem C9_degenerate_dimension (c v : ℚ) (n : ℕ) (hn : 0 < n) :
    sqFit sqNew (List.replicate n [c]) = .ok ⟨some [c], some [c], true⟩ ∧
    c - c + eps ≠ 0 ∧
    quantElem c c v ≤ 255 ∧
    quantElem c c c = 0 := by
  obtain ⟨k, rfl⟩ : ∃ k, n = k + 1 := ⟨n - 1, by omega⟩
  refine ⟨?_, by norm_num [eps], toUint8_le _, ?_⟩
  · unfold sqFit
    rw [if_neg (by simp)]
    rw [colMin_replicate c k, colMax_replicate c k]
  · unfold quantElem
    have h : (c - c) / (c - c + eps) * 255 = 0 := by
      rw [sub_self, zero_div, zero_mul]
    rw [h, toUint8_eq 0 0 (by norm_num) (by norm_num) (by norm_num)]
    decide

/-- Witness for C9: the constant dimension with value 5, three data rows,
probe value 7. -/
theorem C9_witness :
    (0 < 3) ∧
    (sqFit sqNew (List.replicate 3 [5]) = .ok ⟨some [5], some [5], true⟩ ∧
      (5 : ℚ) - 5 + eps ≠ 0 ∧
      quantElem 5 5 7 ≤ 255 ∧
      quantElem 5 5 5 = 0) :=
  ⟨by norm_num, C9_degenerate_dimension 5 7 3 (by norm_num)⟩

/-- C2 (amended).  Of the four operations, only `encode` and `quantize`
guard on their flag and raise the precondition `ValueError`; `decode`
invoked on a freshly constructed (untrained) quantizer raises nothing and
returns the all-zero reconstruction (its codebook loop is empty), and
`dequantize` before `fit` fails with a `TypeError` from arithmetic on
`None`, not with the precondition error. -/
theorem C2_preconditions :
    (∀ (s : PQState) (vs : List (List ℚ)), s.is_trained = false →
      pqEncode s vs = .error (.valueError "PQ is not trained yet")) ∧
    (∀ (s : SQState) (vs : List (List ℚ)), s.is_fitted = false →
      sqQuantize s vs = .error (.valueError "Quantizer not fitted")) ∧
    (∀ (M K D : ℕ) (s0 : PQState), pqInit M K D = .ok s0 →
      ∀ codes : List (List ℕ),
        pqDecode s0 codes = .ok (codes.map (fun _ => List.replicate D 0))) ∧
    (∀ codes : List (List ℕ),
      sqDequantize sqNew codes =
        .error (.typeError "unsupported operand type(s) for -: NoneType and NoneType")) := by
  refine ⟨?_, ?_, ?_, fun codes => rfl⟩
  · intro s vs h
    simp [pqEncode, h]
  · intro s vs h
    simp [sqQuantize, h]
  · intro M K D s0 h codes
    unfold pqInit at h
    split_ifs at h with h1 h2
    injection h with h
    subst h
    exact mapE_ok_of _ _ (fun _ => rfl) codes

/-- Witness for C2: the amended behaviour on concrete untrained/unfitted
states. -/
theorem C2_witness :
    pqEncode ⟨1, 256, 2, 2, [], false⟩ [[1, 2]] = .error (.valueError "PQ is not trained yet") ∧
    sqQuantize sqNew [[1]] = .error (.valueError "Quantizer not fitted") ∧
    pqDecode ⟨1, 256, 2, 2, [], false⟩ [[0], [3]] = .ok [[0, 0], [0, 0]] ∧
    sqDequantize sqNew [[3]] =
      .error (.typeError "unsupported operand type(s) for -: NoneType and NoneType") := by
  refine ⟨C2_preconditions.1 _ _ rfl, C2_preconditions.2.1 _ _ rfl, ?_,
    C2_preconditions.2.2.2 [[3]]⟩
  have h := C2_preconditions.2.2.1 1 256 2 ⟨1, 256, 2, 2, [], false⟩ (by decide) [[0], [3]]
  simpa using h

/-- Counterexample to C2 as stated.  `decode` called before any training
returns a value (the zero matrix) instead of failing with a precondition
error, and `dequantize` called before `fit` fails with a `TypeError`, not a
precondition error. -/
theorem C2_counterexample :
    pqInit 1 256 2 = .ok ⟨1, 256, 2, 2, [], false⟩ ∧
    (⟨1, 256, 2, 2, [], false⟩ : PQState).is_trained = false ∧
    pqDecode ⟨1, 256, 2, 2, [], false⟩ [[0]] = .ok [[0, 0]] ∧
    sqDequantize sqNew [[3]] =
      .error (.typeError "unsupported operand type(s) for -: NoneType and NoneType") ∧
    PyErr.typeError "unsupported operand type(s) for -: NoneType and NoneType" ≠
      PyErr.valueError "Quantizer not fitted" :=
  ⟨by decide, rfl, rfl, rfl, by decide⟩

theorem encodeCodes_take (subdim D : ℕ) (row : List ℚ) :
    ∀ (cbs : List (List (List ℚ))) (m : ℕ), (m + cbs.length) * subdim ≤ D →
      encodeCodes subdim cbs m (row.take D) = encodeCodes subdim cbs m row
  | [], _, _ => rfl
  | cb :: rest, m, h => by
    simp only [List.length_cons] at h
    have hstop : m * subdim + subdim ≤ D := by
      have h1 : (m + 1) * subdim ≤ (m + (rest.length + 1)) * subdim :=
        Nat.mul_le_mul_right _ (by omega)
      have h2 : (m + 1) * subdim = m * subdim + subdim := by ring
      omega
    have hs := slice2_take (m * subdim) (m * subdim + subdim) D row hstop
    have ih := encodeCodes_take subdim D row rest (m + 1) (by
      have : (m + 1 + rest.length) = m + (rest.length + 1) := by omega
      rw [this]
      exact h)
    simp only [encodeCodes, hs, ih]

/-- C3 (amended).  `encode` performs no input-width check.  For an input row
at least as wide as the configured dimension, every subspace slice lies
inside the first `vector_dim` entries, so the row encodes exactly like its
truncation to `vector_dim` — the extra dimensions are silently ignored
rather than rejected.  (A narrower row instead fails inside numpy with a
broadcast `ValueError`, not a typed input-shape error; see the
counterexample for the concrete behaviour.) -/
theorem C3_wide_input_truncated (s : PQState) (row : List ℚ)
    (hcb : s.codebooks.length * s.subvector_dim ≤ s.vector_dim)
    (hrow : s.vector_dim ≤ row.length) :
    pqEncodeRow s row = pqEncodeRow s (row.take s.vector_dim) := by
  unfold pqEncodeRow
  rw [encodeCodes_take s.subvector_dim s.vector_dim row s.codebooks 0 (by simpa using hcb)]

/-- Witness for C3: the trained M=1, K=1, D=2 model encodes the width-3 row
`[1, 2, 3]` exactly like its two-entry truncation. -/
theorem C3_witness :
    (pqSmall.codebooks.length * pqSmall.subvector_dim ≤ pqSmall.vector_dim ∧
      pqSmall.vector_dim ≤ ([1, 2, 3] : List ℚ).length) ∧
    pqEncodeRow pqSmall [1, 2, 3] = pqEncodeRow pqSmall (([1, 2, 3] : List ℚ).take pqSmall.vector_dim) :=
  ⟨⟨by decide, by decide⟩,
    C3_wide_input_truncated pqSmall [1, 2, 3] (by decide) (by decide)⟩

/-- Counterexample to C3 as stated.  The trained M=1, K=1, D=2 model (the
result of `pqTrain` on the vector `[0, 0]`) encodes the width-3 input
`[1, 2, 3]` without any error — producing exactly the codes of the
truncated input `[1, 2]` — where the claim demands an input-shape failure. -/
theorem C3_counterexample :
    pqInit 1 1 2 = .ok ⟨1, 1, 2, 2, [], false⟩ ∧
    pqTrain kmsId [] ⟨1, 1, 2, 2, [], false⟩ [[0, 0]] 50000 = pqSmall ∧
    pqEncode pqSmall [[1, 2, 3]] = .ok [[0]] ∧
    pqEncode pqSmall [[1, 2]] = .ok [[0]] :=
  ⟨by decide, rfl, rfl, rfl⟩

/-- C4 (confirmed).  For a trained model whose state satisfies the spec's
invariants (one nonempty codebook of at most 256 centroids of width
`subvector_dim` per subspace, `n_subspaces * subvector_dim` input
dimensions), encoding a row of width `vector_dim` succeeds, and the code of
each subspace `i` is an index `k` into codebook `i` whose centroid has
minimal Euclidean distance to the row's `i`-th subvector, every strictly
smaller index being at strictly larger distance (np.argmin's first-minimum
tie-break); in particular every code lies in `[0, K - 1]`. -/
theorem C4_nearest_centroid (s : PQState) (row : List ℚ)
    (hT : s.is_trained = true)
    (hlen : s.codebooks.length = s.n_subspaces)
    (hD : s.n_subspaces * s.subvector_dim = s.vector_dim)
    (hrow : row.length = s.vector_dim)
    (hcb : ∀ cb ∈ s.codebooks, cb ≠ [] ∧ cb.length ≤ 256 ∧
      ∀ c ∈ cb, c.length = s.subvector_dim) :
    ∃ codes, pqEncode s [row] = .ok [codes] ∧ codes.length = s.n_subspaces ∧
      ∀ i, i < s.n_subspaces →
        ∃ k, codes.get? i = some k ∧ k < (s.codebooks.getD i []).length ∧
          (∀ j, j < (s.codebooks.getD i []).length →
            Real.sqrt ((sqDistVal
                (slice2 (i * s.subvector_dim) (i * s.subvector_dim + s.subvector_dim) row)
                ((s.codebooks.getD i []).getD k []) : ℚ) : ℝ) ≤
            Real.sqrt ((sqDistVal
                (slice2 (i * s.subvector_dim) (i * s.subvector_dim + s.subvector_dim) row)
                ((s.codebooks.getD i []).getD j []) : ℚ) : ℝ)) ∧
          (∀ j, j < k →
            Real.sqrt ((sqDistVal
                (slice2 (i * s.subvector_dim) (i * s.subvector_dim + s.subvector_dim) row)
                ((s.codebooks.getD i []).getD k []) : ℚ) : ℝ) <
            Real.sqrt ((sqDistVal
                (slice2 (i * s.subvector_dim) (i * s.subvector_dim + s.subvector_dim) row)
                ((s.codebooks.getD i []).getD j []) : ℚ) : ℝ)) := by
  obtain ⟨codes, hok, hlen2, hspec⟩ :=
    encodeCodes_spec s.subvector_dim row s.codebooks 0
      (by rw [Nat.zero_add, hlen, hD, hrow])
      (fun cb h => ⟨(hcb cb h).1, (hcb cb h).2.2⟩)
  have hlenc : codes.length = s.n_subspaces := by rw [hlen2, hlen]
  have hrowok : pqEncodeRow s row = .ok codes := by
    simp only [pqEncodeRow, hok, ok_bind]
    rw [if_neg (by omega), hlenc]
    simp
  refine ⟨codes, ?_, hlenc, ?_⟩
  · simp only [pqEncode, hT, mapE, hrowok, ok_bind]
    simp
  · intro i hi
    have hi' : i < s.codebooks.length := by rw [hlen]; exact hi
    have hcode := hspec i hi'
    simp only [Nat.zero_add] at hcode
    have hmem : s.codebooks.getD i [] ∈ s.codebooks := by
      rw [List.getD_eq_getElem s.codebooks [] hi']
      exact List.getElem_mem hi'
    obtain ⟨hne, hK, hwid⟩ := hcb _ hmem
    have hdsne : (s.codebooks.getD i []).map (sqDistVal
        (slice2 (i * s.subvector_dim) (i * s.subvector_dim + s.subvector_dim) row)) ≠ [] := by
      simpa using hne
    have hdslen : ((s.codebooks.getD i []).map (sqDistVal
        (slice2 (i * s.subvector_dim) (i * s.subvector_dim + s.subvector_dim) row))).length =
        (s.codebooks.getD i []).length := List.length_map _ _
    set f : List ℚ → ℚ := sqDistVal
      (slice2 (i * s.subvector_dim) (i * s.subvector_dim + s.subvector_dim) row) with hf
    set ds : List ℚ := (s.codebooks.getD i []).map f with hds
    have hk : argminIdx ds < (s.codebooks.getD i []).length := by
      rw [← hdslen]
      exact argminIdx_lt_length ds hdsne
    have hmod : argminIdx ds % 256 = argminIdx ds :=
      Nat.mod_eq_of_lt (lt_of_lt_of_le hk hK)
    refine ⟨argminIdx ds, by rw [hcode, hmod], hk, ?_, ?_⟩
    · intro j hj
      have h1 : ds.getD (argminIdx ds) 0 ≤ ds.getD j 0 :=
        argminIdx_le ds j (by rw [hdslen]; exact hj)
      rw [hds, getD_map_of_lt f _ _ hk, getD_map_of_lt f _ _ hj] at h1
      exact Real.sqrt_le_sqrt (by exact_mod_cast h1)
    · intro j hj
      have h2 : ds.getD (argminIdx ds) 0 < ds.getD j 0 := argminIdx_first ds j hj
      have hjlt : j < (s.codebooks.getD i []).length := lt_trans hj hk
      rw [hds, getD_map_of_lt f _ _ hk, getD_map_of_lt f _ _ hjlt] at h2
      refine Real.sqrt_lt_sqrt ?_ (by exact_mod_cast h2)
      exact_mod_cast sqDistVal_nonneg _ _

/-- Witness for C4: the trained M=1, K=2, D=2 model with centroids `[0,0]`
and `[5,5]`, encoding the row `[1, 1]`. -/
theorem C4_witness :
    (pqTwoCent.is_trained = true ∧
      pqTwoCent.codebooks.length = pqTwoCent.n_subspaces ∧
      pqTwoCent.n_subspaces * pqTwoCent.subvector_dim = pqTwoCent.vector_dim ∧
      ([1, 1] : List ℚ).length = pqTwoCent.vector_dim ∧
      ∀ cb ∈ pqTwoCent.codebooks, cb ≠ [] ∧ cb.length ≤ 256 ∧
        ∀ c ∈ cb, c.length = pqTwoCent.subvector_dim) ∧
    (∃ codes, pqEncode pqTwoCent [[1, 1]] = .ok [codes] ∧
      codes.length = pqTwoCent.n_subspaces ∧
      ∀ i, i < pqTwoCent.n_subspaces →
        ∃ k, codes.get? i = some k ∧ k < (pqTwoCent.codebooks.getD i []).length ∧
          (∀ j, j < (pqTwoCent.codebooks.getD i []).length →
            Real.sqrt ((sqDistVal
                (slice2 (i * pqTwoCent.subvector_dim)
                  (i * pqTwoCent.subvector_dim + pqTwoCent.subvector_dim) [1, 1])
                ((pqTwoCent.codebooks.getD i []).getD k []) : ℚ) : ℝ) ≤
            Real.sqrt ((sqDistVal
                (slice2 (i * pqTwoCent.subvector_dim)
                  (i * pqTwoCent.subvector_dim + pqTwoCent.subvector_dim) [1, 1])
                ((pqTwoCent.codebooks.getD i []).getD j []) : ℚ) : ℝ)) ∧
          (∀ j, j < k →
            Real.sqrt ((sqDistVal
                (slice2 (i * pqTwoCent.subvector_dim)
                  (i * pqTwoCent.subvector_dim + pqTwoCent.subvector_dim) [1, 1])
                ((pqTwoCent.codebooks.getD i []).getD k []) : ℚ) : ℝ) <
            Real.sqrt ((sqDistVal
                (slice2 (i * pqTwoCent.subvector_dim)
                  (i * pqTwoCent.subvector_dim + pqTwoCent.subvector_dim) [1, 1])
                ((pqTwoCent.codebooks.getD i []).getD j []) : ℚ) : ℝ))) :=
  ⟨⟨rfl, rfl, rfl, rfl, by decide⟩,
    C4_nearest_centroid pqTwoCent [1, 1] rfl rfl rfl rfl (by decide)⟩

theorem pqLoad_save_eq (s0 s : PQState) (hsd : s0.subvector_dim = s.subvector_dim) :
    pqLoad s0 (pqSave s) = s := by
  cases s0 with
  | mk a0 b0 c0 d0 e0 f0 =>
    cases s with
    | mk a b c d e f =>
      have h' : d0 = d := hsd
      simp only [pqLoad, pqSave, h']

/-- C6 (amended).  The save/load round trip restores encode behaviour
exactly when the loading instance's constructor-derived `subvector_dim`
equals that of the saved model (in particular whenever the loader is
constructed with the same arguments, as in this repository's scripts, where
both trainer and loader use the default configuration): in that case the
loaded state is literally the saved state and `encode` agrees on every
input.  In general `load` keeps the receiver's stale `subvector_dim` and
encode after load can differ or fail (see the counterexample, which uses the
default-constructed loader of `compress.py` on a non-default model). -/
theorem C6_roundtrip_matching (s s0 : PQState) (M0 K0 D0 : ℕ)
    (hinit : pqInit M0 K0 D0 = .ok s0) (hsd : s0.subvector_dim = s.subvector_dim) :
    pqLoad s0 (pqSave s) = s ∧
    ∀ vs, pqEncode (pqLoad s0 (pqSave s)) vs = pqEncode s vs := by
  have hstate := pqLoad_save_eq s0 s hsd
  exact ⟨hstate, fun vs => by rw [hstate]⟩

/-- Witness for C6: the default-configured model saved and loaded into a
default-constructed instance. -/
theorem C6_witness :
    (pqInit 8 256 1024 = .ok pqDefault ∧
      pqDefault.subvector_dim = pqDefault.subvector_dim) ∧
    pqLoad pqDefault (pqSave pqDefault) = pqDefault ∧
    pqEncode (pqLoad pqDefault (pqSave pqDefault)) [[1]] = pqEncode pqDefault [[1]] :=
  ⟨⟨by decide, rfl⟩,
    (C6_roundtrip_matching pqDefault pqDefault 8 256 1024 (by decide) rfl).1,
    (C6_roundtrip_matching pqDefault pqDefault 8 256 1024 (by decide) rfl).2 [[1]]⟩

/-- Counterexample to C6 as stated.  A trained M=2, K=1, D=8 model encodes
`[1, ..., 8]` to `[0, 0]`; after `save` and `load` through the
default-constructed `ProductQuantizer()` receiver of `compress.py` (whose
`subvector_dim` is 128), encoding the same vector fails with a numpy
broadcast error instead of returning the same codes. -/
theorem C6_counterexample :
    pqInit 2 1 8 = .ok ⟨2, 1, 8, 4, [], false⟩ ∧
    pqTrain kmsId [] ⟨2, 1, 8, 4, [], false⟩ [[1, 2, 3, 4, 5, 6, 7, 8]] 50000 = pqEight ∧
    pqInit 8 256 1024 = .ok pqDefault ∧
    pqEncode pqEight [[1, 2, 3, 4, 5, 6, 7, 8]] = .ok [[0, 0]] ∧
    pqEncode (pqLoad pqDefault (pqSave pqEight)) [[1, 2, 3, 4, 5, 6, 7, 8]] =
      .error (.valueError "operands could not be broadcast together") ∧
    (Except.error (.valueError "operands could not be broadcast together") :
      Except PyErr (List (List ℕ))) ≠ .ok [[0, 0]] :=
  ⟨by decide, rfl, by decide, rfl, rfl, by decide⟩

/-- C7 (amended).  The only configuration check in the source is the
constructor's `assert vector_dim % n_subspaces == 0`: construction succeeds
exactly when D is divisible by M, with no restriction on K whatsoever
(`K > 256` is accepted), and `train` itself performs no validation at all —
it always completes and sets the trained flag, for every clusterer, sample
draw, input (empty or not) and sample size; an empty input can only fail
inside the external clustering library. -/
theorem C7_validation (M K D : ℕ) (hM : M ≠ 0) :
    ((∃ s, pqInit M K D = .ok s) ↔ D % M = 0) ∧
    ∀ (kms : ℕ → List (List ℚ) → List (List ℚ)) (idx : List ℕ) (s : PQState)
      (vectors : List (List ℚ)) (n_samples : ℕ),
      (pqTrain kms idx s vectors n_samples).is_trained = true := by
  constructor
  · unfold pqInit
    rw [if_neg hM]
    constructor
    · intro ⟨s, hs⟩
      by_contra h
      rw [if_neg h] at hs
      exact Except.noConfusion hs
    · intro h
      rw [if_pos h]
      exact ⟨_, rfl⟩
  · intro kms idx s vectors n_samples
    rfl

/-- Witness for C7: the amended statement at the default configuration. -/
theorem C7_witness :
    (8 ≠ 0) ∧
    ((∃ s, pqInit 8 256 1024 = .ok s) ↔ 1024 % 8 = 0) ∧
    (pqTrain kmsId [] pqDefault [[1]] 5).is_trained = true :=
  ⟨by decide, (C7_validation 8 256 1024 (by decide)).1,
    (C7_validation 8 256 1024 (by decide)).2 kmsId [] pqDefault [[1]] 5⟩

/-- Counterexample to C7 as stated.  A ProductQuantizer with K = 300 > 256
centroids is constructed without any error, and training it on a nonempty
input completes and marks the model trained — no configuration error is
raised anywhere in repository code. -/
theorem C7_counterexample :
    pqInit 1 300 2 = .ok ⟨1, 300, 2, 2, [], false⟩ ∧
    256 < 300 ∧
    (pqTrain kmsId [] ⟨1, 300, 2, 2, [], false⟩ (List.replicate 300 [1, 2]) 50000).is_trained
      = true :=
  ⟨by decide, by decide, rfl⟩

/-- C8 (amended).  The subset drawn when `N > S` comes from
`np.random.choice` on the global NumPy generator, for which the source sets
no seed (only the k-means step is seeded, with `random_state=42`), so the
draw is an input of the training procedure rather than a function of its
arguments.  Training is reproducible exactly in the no-sampling regime: when
`N ≤ S` the drawn indices are never consulted and two runs agree for any two
draws.  When `N > S`, different draws can yield different codebooks (see the
counterexample). -/
theorem C8_deterministic_iff_no_sampling (kms : ℕ → List (List ℚ) → List (List ℚ))
    (idx1 idx2 : List ℕ) (s : PQState) (vectors : List (List ℚ)) (n_samples : ℕ)
    (h : vectors.length ≤ n_samples) :
    pqTrain kms idx1 s vectors n_samples = pqTrain kms idx2 s vectors n_samples := by
  unfold pqTrain
  simp only [if_neg (not_lt.mpr h)]

/-- Witness for C8: a two-row input with sample size 5 trains identically
under the draws `[0]` and `[1]`. -/
theorem C8_witness :
    (([[1], [2]] : List (List ℚ)).length ≤ 5) ∧
    pqTrain kmsId [0] ⟨1, 1, 1, 1, [], false⟩ [[1], [2]] 5 =
      pqTrain kmsId [1] ⟨1, 1, 1, 1, [], false⟩ [[1], [2]] 5 :=
  ⟨by norm_num,
    C8_deterministic_iff_no_sampling kmsId [0] [1] ⟨1, 1, 1, 1, [], false⟩ [[1], [2]] 5
      (by norm_num)⟩

/-- Counterexample to C8 as stated.  With N = 2 vectors and sample size
S = 1, the draws `[0]` and `[1]` are both possible outcomes of
`np.random.choice(2, 1, replace=False)` on the unseeded global generator,
and the two resulting training runs on the same input with the same
parameters produce different codebooks (`[[[0]]]` versus `[[[2]]]`). -/
theorem C8_counterexample :
    ValidDraw 2 1 [0] ∧ ValidDraw 2 1 [1] ∧
    pqTrain kmsId [0] ⟨1, 1, 1, 1, [], false⟩ [[0], [2]] 1 = ⟨1, 1, 1, 1, [[[0]]], true⟩ ∧
    pqTrain kmsId [1] ⟨1, 1, 1, 1, [], false⟩ [[0], [2]] 1 = ⟨1, 1, 1, 1, [[[2]]], true⟩ ∧
    (⟨1, 1, 1, 1, [[[0]]], true⟩ : PQState) ≠ ⟨1, 1, 1, 1, [[[2]]], true⟩ :=
  ⟨by decide, by decide, rfl, rfl, by decide⟩

/-- C10 (amended).  `load` overwrites exactly the five pickled fields
(`n_subspaces`, `n_centroids`, `vector_dim`, `codebooks`, `is_trained`) and
leaves `subvector_dim` at the receiving constructor's value `D0 / M0`.
After loading a saved model into a constructor-made receiver, the state
coincides with the saved one — and hence encode/decode follow the loaded
configuration — if and only if the receiver's `subvector_dim` equals the
saved model's; matching constructor arguments are sufficient for this but
not necessary (see the counterexample). -/
theorem C10_load_frame :
    (∀ (s : PQState) (a : PQArtifact),
      (pqLoad s a).subvector_dim = s.subvector_dim ∧
      (pqLoad s a).n_subspaces = a.n_subspaces ∧
      (pqLoad s a).n_centroids = a.n_centroids ∧
      (pqLoad s a).vector_dim = a.vector_dim ∧
      (pqLoad s a).codebooks = a.codebooks ∧
      (pqLoad s a).is_trained = a.is_trained) ∧
    (∀ (s s0 : PQState) (M0 K0 D0 : ℕ), pqInit M0 K0 D0 = .ok s0 →
      s0.subvector_dim = D0 / M0 ∧
      (pqLoad s0 (pqSave s) = s ↔ s0.subvector_dim = s.subvector_dim)) := by
  constructor
  · intro s a
    exact ⟨rfl, rfl, rfl, rfl, rfl, rfl⟩
  · intro s s0 M0 K0 D0 h
    unfold pqInit at h
    split_ifs at h with h1 h2
    injection h with h
    subst h
    refine ⟨rfl, ⟨fun he => ?_, fun hsd => pqLoad_save_eq _ _ hsd⟩⟩
    have h2 := congrArg PQState.subvector_dim he
    exact h2

/-- Witness for C10: the frame conditions at the default-configured
instance. -/
theorem C10_witness :
    ((pqLoad pqDefault (pqSave pqSmall)).subvector_dim = pqDefault.subvector_dim ∧
      (pqLoad pqDefault (pqSave pqSmall)).n_subspaces = (pqSave pqSmall).n_subspaces ∧
      (pqLoad pqDefault (pqSave pqSmall)).n_centroids = (pqSave pqSmall).n_centroids ∧
      (pqLoad pqDefault (pqSave pqSmall)).vector_dim = (pqSave pqSmall).vector_dim ∧
      (pqLoad pqDefault (pqSave pqSmall)).codebooks = (pqSave pqSmall).codebooks ∧
      (pqLoad pqDefault (pqSave pqSmall)).is_trained = (pqSave pqSmall).is_trained) ∧
    (pqInit 8 256 1024 = .ok pqDefault ∧
      (pqDefault.subvector_dim = 1024 / 8 ∧
        (pqLoad pqDefault (pqSave pqDefault) = pqDefault ↔
          pqDefault.subvector_dim = pqDefault.subvector_dim))) :=
  ⟨C10_load_frame.1 pqDefault (pqSave pqSmall),
    by decide, C10_load_frame.2 pqDefault pqDefault 8 256 1024 (by decide)⟩

/-- Counterexample to C10 as stated.  A trained M=4, D=16 model is saved and
loaded into a receiver constructed with the different arguments M=2, D=8;
neither `n_subspaces` nor `vector_dim` matches the artifact, yet the
receiver's `subvector_dim` (8/2 = 4) coincides with the saved model's
(16/4 = 4), the loaded state equals the saved state exactly, and encode
behaves per the loaded configuration — refuting the necessity of matching
constructor arguments. -/
theorem C10_counterexample :
    pqInit 4 1 16 = .ok ⟨4, 1, 16, 4, [], false⟩ ∧
    pqTrain kmsId [] ⟨4, 1, 16, 4, [], false⟩
      [[1, 2, 3, 4, 5, 6, 7, 8, 9, 10, 11, 12, 13, 14, 15, 16]] 50000 = pqSixteen ∧
    pqInit 2 1 8 = .ok ⟨2, 1, 8, 4, [], false⟩ ∧
    (⟨2, 1, 8, 4, [], false⟩ : PQState).n_subspaces ≠ pqSixteen.n_subspaces ∧
    (⟨2, 1, 8, 4, [], false⟩ : PQState).vector_dim ≠ pqSixteen.vector_dim ∧
    pqLoad ⟨2, 1, 8, 4, [], false⟩ (pqSave pqSixteen) = pqSixteen ∧
    pqEncode (pqLoad ⟨2, 1, 8, 4, [], false⟩ (pqSave pqSixteen))
        [[1, 2, 3, 4, 5, 6, 7, 8, 9, 10, 11, 12, 13, 14, 15, 16]] =
      pqEncode pqSixteen [[1, 2, 3, 4, 5, 6, 7, 8, 9, 10, 11, 12, 13, 14, 15, 16]] :=
  ⟨by decide, rfl, by decide, by decide, by decide, rfl, rfl⟩
